import Mathlib

/-!
Shallow embedding of the tick-based strategy game core (`poc/game.js`).

Armies carry natural-number troop sizes and rational morale; province
ownership is a list of optional nation ids (grid of 7 × 7 = 49 provinces,
ids 0, 1, 2 for the three nations).  JS floating point arithmetic on the
morale / strength values is modelled with exact rationals; machine floats
never overflow nor lose precision on the small values the game uses.
-/

/-- An army, translated field for field from the objects pushed into
`this.armies` in `game.js`. -/
structure Army where
  id : Nat
  owner : Nat
  size : Nat
  location : Nat
  moving : Bool
  destination : Option Nat
  movementProgress : Nat
  morale : Rat
  conquestProgress : Nat
deriving DecidableEq, Repr

/-- The world state: province owners (49 entries), the army list, the three
nation treasuries, the tick counter and the control flags. -/
structure GameState where
  provinces : List (Option Nat)
  armies : List Army
  treasuries : List Nat
  tick : Nat
  paused : Bool
  gameOver : Bool
  winner : Option Nat
  nextArmyId : Nat
deriving DecidableEq, Repr

/-- Province owner lookup, `this.provinces[p]` (`getOwner`). -/
def ownerAt (st : GameState) (p : Nat) : Option Nat :=
  st.provinces.getD p none

/-- Grid neighbours in the fixed order left, right, up, down
(`getNeighbors`). -/
def getNeighbors (p : Nat) : List Nat :=
  let x := p % 7
  let y := p / 7
  (if 0 < x then [p - 1] else []) ++
  (if x < 6 then [p + 1] else []) ++
  (if 0 < y then [p - 7] else []) ++
  (if y < 6 then [p + 7] else [])

/-- All armies whose `location` field is `p`. -/
def armiesAt (st : GameState) (p : Nat) : List Army :=
  st.armies.filter (fun a => a.location == p)

/-- The non-moving armies at province `p` (the `present` set of the
Conquest Tracker). -/
def nmAt (st : GameState) (p : Nat) : List Army :=
  st.armies.filter (fun a => a.location == p && !a.moving)

/-- Adjacency test used by the UI before issuing a move (`canMoveTo`):
the selected source province must exist and the target must be one of its
neighbours. -/
def canMoveTo (sel : Option Nat) (p : Nat) : Bool :=
  match sel with
  | none => false
  | some src => (getNeighbors src).contains p

/-- Order all idle armies of the human nation (owner 0) at the selected
province to march to `targetId` (`moveSelectedArmy`): they become moving
with a three tick countdown. -/
def moveSelectedArmy (st : GameState) (sel : Option Nat) (targetId : Nat) :
    GameState :=
  match sel with
  | none => st
  | some src =>
    { st with armies := st.armies.map (fun a =>
        if a.location == src && a.owner == 0 && !a.moving then
          { a with moving := true, destination := some targetId,
                   movementProgress := 3 }
        else a) }

/-- Modelled from the spec: the presentation layer (not part of `src/`)
issues the human move request only when `canMoveTo` accepts the target —
"move all idle armies of the human nation from province A to province B,
accepted only if B is adjacent to A, silently rejected otherwise". -/
def moveRequest (st : GameState) (src targetId : Nat) : GameState :=
  if canMoveTo (some src) targetId then moveSelectedArmy st (some src) targetId
  else st

/-- Human construction request (`buildArmyAt`): requires treasury at least
50 and a player-owned province; creates a fresh size-1000, morale-1 army. -/
def buildArmyAt (st : GameState) (p : Nat) : GameState :=
  if st.treasuries.getD 0 0 < 50 then st
  else if ownerAt st p ≠ some 0 then st
  else
    { st with
      armies := st.armies ++
        [{ id := st.nextArmyId, owner := 0, size := 1000, location := p,
           moving := false, destination := none, movementProgress := 0,
           morale := 1, conquestProgress := 0 }],
      treasuries := st.treasuries.set 0 (st.treasuries.getD 0 0 - 50),
      nextArmyId := st.nextArmyId + 1 }

/-- One movement step for a single army (`processMovement` body): a moving
army's countdown decreases; on reaching zero it relocates and goes idle. -/
def stepArmy (a : Army) : Army :=
  if a.moving && a.destination.isSome then
    if a.movementProgress - 1 = 0 then
      { a with location := a.destination.getD a.location, moving := false,
               destination := none, movementProgress := 0 }
    else { a with movementProgress := a.movementProgress - 1 }
  else a

/-- Phase 1 of the tick (`processMovement`). -/
def processMovement (st : GameState) : GameState :=
  { st with armies := st.armies.map stepArmy }

/-- First-occurrence deduplication, the order `new Set(...)` keeps. -/
def dedupFirstAux (seen : List Nat) : List Nat → List Nat
  | [] => []
  | x :: xs =>
    if seen.contains x then dedupFirstAux seen xs
    else x :: dedupFirstAux (x :: seen) xs

/-- First-occurrence deduplication of a list of nation ids. -/
def dedupFirst (l : List Nat) : List Nat :=
  dedupFirstAux [] l

/-- Nations with an army at `p`, in first-encountered order. -/
def ownersAt (st : GameState) (p : Nat) : List Nat :=
  dedupFirst ((armiesAt st p).map (·.owner))

/-- Effective strength of a nation's armies within a list:
Σ size × morale. -/
def strengthOf (l : List Army) (o : Nat) : Rat :=
  ((l.filter (fun a => a.owner == o)).map
    (fun a => (a.size : Rat) * a.morale)).sum

/-- The per-nation force table built by `processCombat`:
(owner, effective strength), in first-encountered owner order. -/
def battleForcesAt (st : GameState) (p : Nat) : List (Nat × Rat) :=
  (ownersAt st p).map (fun o => (o, strengthOf (armiesAt st p) o))

/-- First force attaining the maximal strength: the head of the stable
descending sort `forces.sort((a, b) => b.totalStrength - a.totalStrength)`
kept by `processCombat`. -/
def pickFirstMax (best : Nat × Rat) : List (Nat × Rat) → Nat × Rat
  | [] => best
  | f :: fs => pickFirstMax (if best.2 < f.2 then f else best) fs

/-- The winning nation of the battle at `p`, if at least two nations are
present. -/
def battleWinnerAt (st : GameState) (p : Nat) : Option Nat :=
  match battleForcesAt st p with
  | f :: f2 :: fs => some (pickFirstMax f (f2 :: fs)).1
  | _ => none

/-- Casualty rate charged to the winner `w` given the force table:
min(0.5, losing strength / winning strength × 0.3). -/
def rateFrom (forces : List (Nat × Rat)) (w : Nat × Rat) : Rat :=
  min (1 / 2)
    (((forces.filter (fun f => f.1 != w.1)).map (·.2)).sum / w.2 * (3 / 10))

/-- The casualty rate of the battle at `p` (0 when no battle occurs). -/
def casualtyRateAt (st : GameState) (p : Nat) : Rat :=
  match battleForcesAt st p with
  | f :: f2 :: fs => rateFrom (f :: f2 :: fs) (pickFirstMax f (f2 :: fs))
  | _ => 0

/-- Apply battle casualties and the morale adjustment to one winning army:
size shrinks by the casualty rate (floored, minimum 100 troops); morale
falls 0.3 (floor 0.3) past 30% casualties, falls 0.1 (floor 0.5) past 10%,
and otherwise rises 0.1 (ceiling 1.2). -/
def applyCasualty (r : Rat) (a : Army) : Army :=
  { a with
    size := max 100 (((a.size : Rat) * (1 - r)).floor.toNat),
    morale :=
      if 3 / 10 < r then max (3 / 10) (a.morale - 3 / 10)
      else if 1 / 10 < r then max (1 / 2) (a.morale - 1 / 10)
      else min (6 / 5) (a.morale + 1 / 10) }

/-- Resolve the battle at province `p` (`processCombat` body for one
location): when two or more nations are present, the losers' armies are
removed, the winner's armies take casualties, and the province falls to
the winner. -/
def resolveCombatAt (st : GameState) (p : Nat) : GameState :=
  match battleForcesAt st p with
  | f :: f2 :: fs =>
    let w := pickFirstMax f (f2 :: fs)
    let r := rateFrom (f :: f2 :: fs) w
    { st with
      armies := st.armies.filterMap (fun a =>
        if a.location == p then
          if a.owner == w.1 then some (applyCasualty r a) else none
        else some a),
      provinces := st.provinces.set p (some w.1) }
  | _ => st

/-- Phase 2 of the tick (`processCombat`): battles resolve location by
location; army locations always lie in 0‥48, the keys `Object.entries`
yields in ascending order. -/
def processCombat (st : GameState) : GameState :=
  (List.range 49).foldl resolveCombatAt st

/-- Conquest bookkeeping at one province (`processConquest` body):
a sole foreign occupier gains one progress point and takes the province at
two points; a sole friendly occupier and co-located armies reset to 0. -/
def conquestAt (st : GameState) (p : Nat) : GameState :=
  match nmAt st p with
  | [a] =>
    if ownerAt st p ≠ some a.owner then
      if 2 ≤ a.conquestProgress + 1 then
        { st with
          armies := st.armies.map (fun b =>
            if b.location == p && !b.moving then
              { b with conquestProgress := 0 }
            else b),
          provinces := st.provinces.set p (some a.owner) }
      else
        { st with armies := st.armies.map (fun b =>
            if b.location == p && !b.moving then
              { b with conquestProgress := a.conquestProgress + 1 }
            else b) }
    else
      { st with armies := st.armies.map (fun b =>
          if b.location == p && !b.moving then
            { b with conquestProgress := 0 }
          else b) }
  | [] => st
  | _ =>
    { st with armies := st.armies.map (fun b =>
        if b.location == p && !b.moving then { b with conquestProgress := 0 }
        else b) }

/-- Phase 2.5 of the tick (`processConquest`), over all 49 provinces. -/
def processConquest (st : GameState) : GameState :=
  (List.range 49).foldl conquestAt st

/-- Provinces owned by nation `n`. -/
def countOwned (st : GameState) (n : Nat) : Nat :=
  (st.provinces.filter (fun o => o == some n)).length

/-- Phase 3 of the tick (`processIncome`): each nation earns 2 gold per
owned province. -/
def processIncome (st : GameState) : GameState :=
  { st with treasuries :=
      st.treasuries.mapIdx (fun n t => t + 2 * countOwned st n) }

/-- Manhattan distance between two provinces of the 7-wide grid. -/
def gridDist (a b : Nat) : Nat :=
  ((a % 7 : Int) - (b % 7 : Int)).natAbs + ((a / 7 : Int) - (b / 7 : Int)).natAbs

/-- The AI offense score of neighbour `nb` for `army` of `nationId`
(`findBestTarget` scoring loop): +15 for owned / +10 for neutral targets,
a defender-strength term (+20 undefended, +10 when clearly stronger,
+5 when merely stronger, −10 otherwise) and a bonus for closeness to each
capital province 0, 9, 18 held by another nation. -/
def scoreOf (st : GameState) (nationId : Nat) (army : Army) (nb : Nat) :
    Int :=
  let base : Int := if (ownerAt st nb).isSome then 15 else 10
  let defenderStrength : Rat :=
    ((armiesAt st nb).map (fun b => (b.size : Rat) * b.morale)).sum
  let attackerStrength : Rat := (army.size : Rat) * army.morale
  let combatScore : Int :=
    if defenderStrength == 0 then 20
    else if defenderStrength * (6 / 5) < attackerStrength then 10
    else if defenderStrength < attackerStrength then 5
    else -10
  let capitalScore : Int :=
    ([0, 9, 18] : List Nat).foldl (fun acc c =>
      if ownerAt st c ≠ some nationId ∧ ownerAt st c ≠ none then
        acc + max 0 (10 - (gridDist nb c : Int))
      else acc) 0
  base + combatScore + capitalScore

/-- The AI target choice (`findBestTarget`): defend the first own neighbour
under attack; otherwise score the foreign neighbours, keep the first best,
and commit only past the fixed threshold 5. -/
def findBestTarget (st : GameState) (nationId : Nat) (army : Army) :
    Option Nat :=
  let neighbors := getNeighbors army.location
  match neighbors.find? (fun nb =>
      ownerAt st nb == some nationId &&
      !((armiesAt st nb).filter (fun b => b.owner != nationId)).isEmpty) with
  | some nb => some nb
  | none =>
    let best := neighbors.foldl (fun (best : Option Nat × Int) nb =>
      if ownerAt st nb == some nationId then best
      else if best.2 < scoreOf st nationId army nb then
        (some nb, scoreOf st nationId army nb)
      else best) (none, -999)
    if 5 < best.2 then best.1 else none

/-- Issue the AI movement order to the army at index `i` of the army list
(the body of the `myArmies.forEach` loop in `aiThink`). -/
def aiMoveStep (nationId : Nat) (st : GameState) (i : Nat) : GameState :=
  match st.armies.get? i with
  | some a =>
    match findBestTarget st nationId a with
    | some t =>
      let a2 : Army :=
        { a with moving := true, destination := some t, movementProgress := 3 }
      { st with armies := st.armies.set i a2 }
    | none => st
  | none => st

/-- The AI construction step of `aiThink`: with the random draw (modelled
as the oracle bit for this nation) and 50 gold, build a size-1000 army at
the first owned province. -/
def aiBuild (rand : Nat → Bool) (st : GameState) (nationId : Nat) :
    GameState :=
  if rand nationId && decide (50 ≤ st.treasuries.getD nationId 0) then
    match st.provinces.findIdx? (fun o => o == some nationId) with
    | some loc =>
      { st with
        armies := st.armies ++
          [{ id := st.nextArmyId, owner := nationId, size := 1000,
             location := loc, moving := false, destination := none,
             movementProgress := 0, morale := 1, conquestProgress := 0 }],
        treasuries := st.treasuries.set nationId
          (st.treasuries.getD nationId 0 - 50),
        nextArmyId := st.nextArmyId + 1 }
    | none => st
  else st

/-- One AI nation's thinking (`aiThink`): build, then order every idle army
of the nation (snapshot taken after building) toward its best target. -/
def aiThink (rand : Nat → Bool) (st : GameState) (nationId : Nat) :
    GameState :=
  let st1 := aiBuild rand st nationId
  let idxs := (List.range st1.armies.length).filter (fun i =>
    match st1.armies.get? i with
    | some a => a.owner == nationId && !a.moving
    | none => false)
  idxs.foldl (aiMoveStep nationId) st1

/-- Phase 4 of the tick (`processAI`): both AI nations think, unless the
game is over. -/
def processAI (rand : Nat → Bool) (st : GameState) : GameState :=
  if st.gameOver then st
  else ([1, 2] : List Nat).foldl (aiThink rand) st

/-- Phase 5 of the tick (`checkVictory`): the first nation owning at least
37 provinces (75% of 49) is recorded as winner, ending and pausing the
game. -/
def checkVictory (st : GameState) : GameState :=
  match ([0, 1, 2] : List Nat).find? (fun n => decide (37 ≤ countOwned st n)) with
  | some n => { st with winner := some n, gameOver := true, paused := true }
  | none => st

/-- One full tick (`processTick`): gated on the pause and game-over flags,
then movement → combat → conquest → income → AI (every second tick) →
victory check.  The AI's random build draws are supplied by `rand`. -/
def processTick (rand : Nat → Bool) (st : GameState) : GameState :=
  if st.paused || st.gameOver then st
  else
    let st1 := { st with tick := st.tick + 1 }
    let st2 := processMovement st1
    let st3 := processCombat st2
    let st4 := processConquest st3
    let st5 := processIncome st4
    let st6 := if st5.tick % 2 == 0 then processAI rand st5 else st5
    checkVictory st6

/-- The initial province ownership written by `init`. -/
def initProvinces : List (Option Nat) :=
  (List.range 49).map (fun p =>
    if p = 0 ∨ p = 1 ∨ p = 5 then some 0
    else if p = 9 ∨ p = 14 then some 1
    else if p = 18 ∨ p = 19 then some 2
    else none)

/-- The initial world state written by `init`. -/
def initState : GameState :=
  { provinces := initProvinces,
    armies :=
      [{ id := 1, owner := 0, size := 1000, location := 0, moving := false,
         destination := none, movementProgress := 0, morale := 1,
         conquestProgress := 0 },
       { id := 2, owner := 1, size := 1000, location := 9, moving := false,
         destination := none, movementProgress := 0, morale := 1,
         conquestProgress := 0 },
       { id := 3, owner := 2, size := 1000, location := 19, moving := false,
         destination := none, movementProgress := 0, morale := 1,
         conquestProgress := 0 }],
    treasuries := [200, 200, 200],
    tick := 0,
    paused := false,
    gameOver := false,
    winner := none,
    nextArmyId := 100 }

/-- States reachable from the initial state through ticks (with arbitrary
AI build draws), human move and construction requests, and pause
toggling. -/
inductive Reachable : GameState → Prop where
  | init : Reachable initState
  | tick (rand : Nat → Bool) {s : GameState} :
      Reachable s → Reachable (processTick rand s)
  | move (src tgt : Nat) {s : GameState} :
      Reachable s → Reachable (moveRequest s src tgt)
  | build (p : Nat) {s : GameState} :
      Reachable s → Reachable (buildArmyAt s p)
  | pause (b : Bool) {s : GameState} :
      Reachable s → Reachable { s with paused := b }

attribute [local semireducible] Rat.add Rat.mul Rat.sub Rat.inv

/-! ### General helper lemmas -/

/-- Filtering commutes with a map that does not change the filtered
predicate. -/
theorem filter_map_comm (g : Army → Army) (q : Army → Bool)
    (h : ∀ a, q (g a) = q a) (l : List Army) :
    (l.map g).filter q = (l.filter q).map g := by
  induction l with
  | nil => rfl
  | cons a l ih =>
    by_cases hq : q a = true
    · simp [List.filter, hq, h, ih]
    · have hq' : q a = false := by simp at hq; exact hq
      simp [List.filter, hq', h, ih]

/-- Filtering commutes with a `filterMap` that does not change the
filtered predicate. -/
theorem filter_filterMap_comm (g : Army → Option Army) (q : Army → Bool)
    (h : ∀ a b, g a = some b → q b = q a) (l : List Army) :
    (l.filterMap g).filter q = (l.filter q).filterMap g := by
  induction l with
  | nil => rfl
  | cons a l ih =>
    cases hg : g a with
    | none =>
      by_cases hq : q a = true
      · simp [List.filterMap_cons, List.filter, hg, hq, ih]
      · have hq' : q a = false := by simp at hq; exact hq
        simp [List.filterMap_cons, List.filter, hg, hq', ih]
    | some b =>
      have hqb : q b = q a := h a b hg
      by_cases hq : q a = true
      · simp [List.filterMap_cons, List.filter, hg, hqb, hq, ih]
      · have hq' : q a = false := by simp at hq; exact hq
        simp [List.filterMap_cons, List.filter, hg, hqb, hq', ih]

/-- Two disjoint filters together keep at most the whole list. -/
theorem length_filter_disjoint_le {α : Type} (p q : α → Bool) (l : List α)
    (h : ∀ x, ¬(p x = true ∧ q x = true)) :
    (l.filter p).length + (l.filter q).length ≤ l.length := by
  induction l with
  | nil => simp
  | cons x xs ih =>
    by_cases hp : p x = true
    · have hq : q x = false := by
        rcases Bool.eq_false_or_eq_true (q x) with h' | h'
        · exact absurd ⟨hp, h'⟩ (h x)
        · exact h'
      simp only [List.filter, hp, hq, List.length_cons]
      omega
    · have hp' : p x = false := by simp at hp; exact hp
      by_cases hq : q x = true
      · simp only [List.filter, hp', hq, List.length_cons]
        omega
      · have hq' : q x = false := by simp at hq; exact hq
        simp only [List.filter, hp', hq', List.length_cons]
        omega

/-! ### C5: pause and game-over gate the whole tick -/

/-- C5: for every state in which the pause flag or the game-over flag is
set, advancing one tick produces exactly the same state: no field of any
province, army or nation changes and the tick counter does not advance. -/
theorem tick_noop_when_paused_or_over (rand : Nat → Bool) (st : GameState)
    (h : st.paused = true ∨ st.gameOver = true) :
    processTick rand st = st := by
  have hb : (st.paused || st.gameOver) = true := by
    rcases h with h | h <;> simp [h]
  unfold processTick
  simp [hb]

/-- Witness for C5 at a concrete paused state. -/
theorem tick_noop_when_paused_or_over_witness :
    processTick (fun _ => false) { initState with paused := true } =
      { initState with paused := true } :=
  tick_noop_when_paused_or_over (fun _ => false)
    { initState with paused := true } (Or.inl rfl)

/-! ### C3: non-adjacent move requests are rejected -/

/-- C3: a move request whose target province is not adjacent to the source
province leaves the whole state — in particular every army's moving flag,
destination, movement progress, location, size, morale and conquest
progress — unchanged. -/
theorem move_request_nonadjacent_noop (st : GameState) (src tgt : Nat)
    (h : tgt ∉ getNeighbors src) :
    moveRequest st src tgt = st := by
  have he : canMoveTo (some src) tgt = (getNeighbors src).contains tgt := rfl
  have hc : canMoveTo (some src) tgt = false := by
    rw [he]
    rcases Bool.eq_false_or_eq_true ((getNeighbors src).contains tgt) with h' | h'
    · exact absurd (List.elem_iff.mp h') h
    · exact h'
  simp [moveRequest, hc]

/-- Witness for C3: province 10 is not adjacent to province 0. -/
theorem move_request_nonadjacent_noop_witness :
    moveRequest initState 0 10 = initState :=
  move_request_nonadjacent_noop initState 0 10 (by decide)

/-! ### C6: the victory evaluator -/

/-- Scenario C province map: nation 1 owns exactly the 37 provinces
0‥36. -/
def provV : List (Option Nat) :=
  (List.range 49).map (fun p => if p < 37 then some 1 else none)

/-- Scenario C state. -/
def stV : GameState := { initState with provinces := provV }

/-- C6: when some nation owns at least 37 of the 49 provinces, the victory
evaluator records it as winner and sets the game-over and pause flags; when
no nation reaches 37, it changes nothing. -/
theorem victory_threshold (st : GameState)
    (hlen : st.provinces.length = 49) :
    (∀ n, n < 3 → 37 ≤ countOwned st n →
      checkVictory st =
        { st with winner := some n, gameOver := true, paused := true }) ∧
    ((∀ n, n < 3 → countOwned st n < 37) → checkVictory st = st) := by
  constructor
  · intro n hn h37
    have hdis : ∀ m, m ≠ n → countOwned st m < 37 := by
      intro m hm
      have hd := length_filter_disjoint_le
        (fun o => o == some m) (fun o => o == some n) st.provinces
        (by
          intro x hx
          rcases hx with ⟨h1, h2⟩
          rw [beq_iff_eq] at h1 h2
          subst h1
          injection h2 with h3
          exact hm h3)
      unfold countOwned at h37 ⊢
      omega
    interval_cases n
    · have e0 : decide (37 ≤ countOwned st 0) = true := by simp [h37]
      simp [checkVictory, List.find?, e0]
    · have e0 : decide (37 ≤ countOwned st 0) = false := by
        have := hdis 0 (by omega)
        simp
        omega
      have e1 : decide (37 ≤ countOwned st 1) = true := by simp [h37]
      simp [checkVictory, List.find?, e0, e1]
    · have e0 : decide (37 ≤ countOwned st 0) = false := by
        have := hdis 0 (by omega)
        simp
        omega
      have e1 : decide (37 ≤ countOwned st 1) = false := by
        have := hdis 1 (by omega)
        simp
        omega
      have e2 : decide (37 ≤ countOwned st 2) = true := by simp [h37]
      simp [checkVictory, List.find?, e0, e1, e2]
  · intro hlt
    have e0 : decide (37 ≤ countOwned st 0) = false := by
      have := hlt 0 (by omega); simp; omega
    have e1 : decide (37 ≤ countOwned st 1) = false := by
      have := hlt 1 (by omega); simp; omega
    have e2 : decide (37 ≤ countOwned st 2) = false := by
      have := hlt 2 (by omega); simp; omega
    simp [checkVictory, List.find?, e0, e1, e2]

/-- Witness for C6: exactly 37 provinces owned by nation 1 triggers the
victory bookkeeping for nation 1. -/
theorem victory_threshold_witness :
    checkVictory stV =
      { stV with winner := some 1, gameOver := true, paused := true } :=
  (victory_threshold stV (by decide)).1 1 (by decide) (by decide)

/-! ### C2: the troop-size floor invariant -/

/-- Every army of the list has at least 100 troops. -/
def sizesOK (l : List Army) : Prop := ∀ a ∈ l, 100 ≤ a.size

theorem sizesOK_map (g : Army → Army)
    (h : ∀ a, 100 ≤ a.size → 100 ≤ (g a).size) {l : List Army}
    (hl : sizesOK l) : sizesOK (l.map g) := by
  intro b hb
  rcases List.mem_map.mp hb with ⟨a, ha, rfl⟩
  exact h a (hl a ha)

theorem sizesOK_moveSelectedArmy (st : GameState) (sel : Option Nat)
    (t : Nat) (h : sizesOK st.armies) :
    sizesOK (moveSelectedArmy st sel t).armies := by
  cases sel with
  | none => exact h
  | some src =>
    refine sizesOK_map _ (fun a ha => ?_) h
    by_cases hc : (a.location == src && a.owner == 0 && !a.moving) = true <;>
      simp [hc, ha]

theorem sizesOK_moveRequest (st : GameState) (src t : Nat)
    (h : sizesOK st.armies) : sizesOK (moveRequest st src t).armies := by
  unfold moveRequest
  by_cases hc : canMoveTo (some src) t = true
  · simpa [hc] using sizesOK_moveSelectedArmy st (some src) t h
  · simp at hc
    simp [hc, h]

theorem sizesOK_buildArmyAt (st : GameState) (p : Nat)
    (h : sizesOK st.armies) : sizesOK (buildArmyAt st p).armies := by
  unfold buildArmyAt
  split
  · exact h
  · split
    · exact h
    · intro a ha
      rcases List.mem_append.mp ha with ha' | ha'
      · exact h a ha'
      · simp at ha'
        simp [ha']

theorem stepArmy_size (a : Army) : (stepArmy a).size = a.size := by
  unfold stepArmy
  split
  · split <;> rfl
  · rfl

theorem sizesOK_processMovement (st : GameState)
    (h : sizesOK st.armies) : sizesOK (processMovement st).armies := by
  refine sizesOK_map _ (fun a ha => ?_) h
  rw [stepArmy_size]
  exact ha

theorem sizesOK_filterMap_battle (l : List Army) (p w : Nat) (r : Rat)
    (h : sizesOK l) :
    sizesOK (l.filterMap (fun a =>
      if a.location == p then
        if a.owner == w then some (applyCasualty r a) else none
      else some a)) := by
  intro b hb
  rcases List.mem_filterMap.mp hb with ⟨a, ha, hg⟩
  by_cases hl : (a.location == p) = true
  · by_cases hw : (a.owner == w) = true
    · rw [if_pos hl, if_pos hw] at hg
      injection hg with hg
      subst hg
      unfold applyCasualty
      simp
    · rw [if_pos hl, if_neg hw] at hg
      exact absurd hg (by simp)
  · rw [if_neg hl] at hg
    injection hg with hg
    subst hg
    exact h a ha

theorem sizesOK_resolveCombatAt (st : GameState) (p : Nat)
    (h : sizesOK st.armies) : sizesOK (resolveCombatAt st p).armies := by
  unfold resolveCombatAt
  split
  · exact sizesOK_filterMap_battle st.armies p _ _ h
  · exact h

theorem sizesOK_processCombat (st : GameState)
    (h : sizesOK st.armies) : sizesOK (processCombat st).armies := by
  unfold processCombat
  generalize List.range 49 = l
  induction l generalizing st with
  | nil => exact h
  | cons p l ih => exact ih _ (sizesOK_resolveCombatAt st p h)

theorem sizesOK_conquestAt (st : GameState) (p : Nat)
    (h : sizesOK st.armies) : sizesOK (conquestAt st p).armies := by
  unfold conquestAt
  have hm : ∀ n : Nat, sizesOK (st.armies.map (fun b =>
      if b.location == p && !b.moving then { b with conquestProgress := n }
      else b)) := by
    intro n
    refine sizesOK_map _ (fun a ha => ?_) h
    by_cases hc : (a.location == p && !a.moving) = true <;> simp [hc, ha]
  split
  · split
    · split
      · exact hm 0
      · exact hm _
    · exact hm 0
  · exact h
  · exact hm 0

theorem sizesOK_processConquest (st : GameState)
    (h : sizesOK st.armies) : sizesOK (processConquest st).armies := by
  unfold processConquest
  generalize List.range 49 = l
  induction l generalizing st with
  | nil => exact h
  | cons p l ih => exact ih _ (sizesOK_conquestAt st p h)

theorem sizesOK_processIncome (st : GameState)
    (h : sizesOK st.armies) : sizesOK (processIncome st).armies := h

theorem sizesOK_checkVictory (st : GameState)
    (h : sizesOK st.armies) : sizesOK (checkVictory st).armies := by
  unfold checkVictory
  split <;> exact h

theorem sizesOK_aiBuild (rand : Nat → Bool) (st : GameState) (n : Nat)
    (h : sizesOK st.armies) : sizesOK (aiBuild rand st n).armies := by
  unfold aiBuild
  split
  · split
    · intro a ha
      rcases List.mem_append.mp ha with ha' | ha'
      · exact h a ha'
      · simp at ha'
        simp [ha']
    · exact h
  · exact h

theorem sizesOK_aiMoveStep (n : Nat) (st : GameState) (i : Nat)
    (h : sizesOK st.armies) : sizesOK (aiMoveStep n st i).armies := by
  unfold aiMoveStep
  split
  · split
    · intro b hb
      rcases List.mem_or_eq_of_mem_set hb with hb' | hb'
      · exact h b hb'
      · subst hb'
        simpa using h _ (List.get?_mem (by assumption))
    · exact h
  · exact h

theorem sizesOK_foldl_aiMoveStep (n : Nat) (l : List Nat) (st : GameState)
    (h : sizesOK st.armies) :
    sizesOK (l.foldl (aiMoveStep n) st).armies := by
  induction l generalizing st with
  | nil => exact h
  | cons i l ih => exact ih _ (sizesOK_aiMoveStep n st i h)

theorem sizesOK_aiThink (rand : Nat → Bool) (st : GameState) (n : Nat)
    (h : sizesOK st.armies) : sizesOK (aiThink rand st n).armies := by
  simp only [aiThink]
  exact sizesOK_foldl_aiMoveStep n _ _ (sizesOK_aiBuild rand st n h)

theorem sizesOK_processAI (rand : Nat → Bool) (st : GameState)
    (h : sizesOK st.armies) : sizesOK (processAI rand st).armies := by
  unfold processAI
  split
  · exact h
  · exact sizesOK_aiThink rand _ 2 (sizesOK_aiThink rand _ 1 h)

theorem sizesOK_processTick (rand : Nat → Bool) (st : GameState)
    (h : sizesOK st.armies) : sizesOK (processTick rand st).armies := by
  unfold processTick
  split
  · exact h
  · refine sizesOK_checkVictory _ ?_
    split
    · exact sizesOK_processAI rand _ (sizesOK_processIncome _
        (sizesOK_processConquest _ (sizesOK_processCombat _
          (sizesOK_processMovement _ h))))
    · exact sizesOK_processIncome _ (sizesOK_processConquest _
        (sizesOK_processCombat _ (sizesOK_processMovement _ h)))

/-- C2: in every reachable state — hence at every point between ticks —
every army has at least 100 troops: armies are created with 1000, combat
floors a winner's size at 100, and no other operation decreases size. -/
theorem reachable_size_ge_100 (st : GameState) (h : Reachable st) :
    ∀ a ∈ st.armies, 100 ≤ a.size := by
  induction h with
  | init => intro a ha; fin_cases ha <;> decide
  | tick rand h ih => exact sizesOK_processTick rand _ ih
  | move src tgt h ih => exact sizesOK_moveRequest _ src tgt ih
  | build p h ih => exact sizesOK_buildArmyAt _ p ih
  | pause b h ih => exact ih

/-- Witness for C2 at the initial state: the first starting army has 1000
troops, hence at least 100. -/
theorem reachable_size_ge_100_witness :
    100 ≤ ({ id := 1, owner := 0, size := 1000, location := 0,
             moving := false, destination := none, movementProgress := 0,
             morale := 1, conquestProgress := 0 } : Army).size :=
  reachable_size_ge_100 initState Reachable.init _ (by simp [initState])

/-! ### C9: battle tie-break -/

theorem pickFirstMax_of_le (b : Nat × Rat) (l : List (Nat × Rat))
    (h : ∀ f ∈ l, f.2 ≤ b.2) : pickFirstMax b l = b := by
  induction l generalizing b with
  | nil => rfl
  | cons f fs ih =>
    have hf : ¬ b.2 < f.2 := not_lt.mpr (h f (by simp))
    unfold pickFirstMax
    rw [if_neg hf]
    exact ih b (fun g hg => h g (by simp [hg]))

theorem pickFirstMax_append (b x : Nat × Rat) (l1 l2 : List (Nat × Rat))
    (hb : b.2 < x.2) (h1 : ∀ f ∈ l1, f.2 < x.2)
    (h2 : ∀ f ∈ l2, f.2 ≤ x.2) :
    pickFirstMax b (l1 ++ x :: l2) = x := by
  induction l1 generalizing b with
  | nil =>
    rw [List.nil_append]
    unfold pickFirstMax
    rw [if_pos hb]
    exact pickFirstMax_of_le x l2 h2
  | cons f fs ih =>
    rw [List.cons_append]
    unfold pickFirstMax
    by_cases hc : b.2 < f.2
    · rw [if_pos hc]
      exact ih f (h1 f (by simp)) (fun g hg => h1 g (by simp [hg]))
    · rw [if_neg hc]
      exact ih b hb (fun g hg => h1 g (by simp [hg]))

theorem battleWinnerAt_cons (st : GameState) (p : Nat) (f : Nat × Rat)
    (fs : List (Nat × Rat)) (h : battleForcesAt st p = f :: fs)
    (hfs : fs ≠ []) :
    battleWinnerAt st p = some (pickFirstMax f fs).1 := by
  unfold battleWinnerAt
  rw [h]
  cases fs with
  | nil => exact absurd rfl hfs
  | cons b bs => rfl

/-- C9: in every battle, when two or more nations attain the greatest
effective strength, the winner is the first-encountered nation in the
armies' iteration order: every nation listed before `o` in `ownersAt` is
strictly weaker, every nation after it is no stronger, and `o` wins. -/
theorem battle_tie_first_encountered (st : GameState) (p o : Nat)
    (l1 l2 : List Nat) (hsplit : ownersAt st p = l1 ++ o :: l2)
    (h1 : ∀ o2 ∈ l1,
      strengthOf (armiesAt st p) o2 < strengthOf (armiesAt st p) o)
    (h2 : ∀ o2 ∈ l2,
      strengthOf (armiesAt st p) o2 ≤ strengthOf (armiesAt st p) o)
    (hbattle : 2 ≤ (ownersAt st p).length) :
    battleWinnerAt st p = some o := by
  have hforce : battleForcesAt st p =
      (l1.map (fun o2 => (o2, strengthOf (armiesAt st p) o2))) ++
        (o, strengthOf (armiesAt st p) o) ::
        (l2.map (fun o2 => (o2, strengthOf (armiesAt st p) o2))) := by
    unfold battleForcesAt
    rw [hsplit, List.map_append, List.map_cons]
  cases l1 with
  | nil =>
    cases l2 with
    | nil =>
      rw [hsplit] at hbattle
      simp at hbattle
    | cons b bs =>
      rw [List.map_nil, List.nil_append, List.map_cons] at hforce
      have := battleWinnerAt_cons st p _ _ hforce (by simp)
      rw [this]
      have hpick : pickFirstMax (o, strengthOf (armiesAt st p) o)
          ((b, strengthOf (armiesAt st p) b) ::
            bs.map (fun o2 => (o2, strengthOf (armiesAt st p) o2))) =
          (o, strengthOf (armiesAt st p) o) := by
        refine pickFirstMax_of_le _ _ (fun g hg => ?_)
        rcases List.mem_cons.mp hg with hg' | hg'
        · subst hg'
          exact h2 b (by simp)
        · rcases List.mem_map.mp hg' with ⟨o2, ho2, rfl⟩
          exact h2 o2 (by simp [ho2])
      rw [hpick]
  | cons a l1' =>
    rw [List.map_cons, List.cons_append] at hforce
    have := battleWinnerAt_cons st p _ _ hforce (by simp)
    rw [this]
    have hpick : pickFirstMax (a, strengthOf (armiesAt st p) a)
        ((l1'.map (fun o2 => (o2, strengthOf (armiesAt st p) o2))) ++
          (o, strengthOf (armiesAt st p) o) ::
          (l2.map (fun o2 => (o2, strengthOf (armiesAt st p) o2)))) =
        (o, strengthOf (armiesAt st p) o) := by
      refine pickFirstMax_append _ _ _ _ (h1 a (by simp)) ?_ ?_
      · intro g hg
        rcases List.mem_map.mp hg with ⟨o2, ho2, rfl⟩
        exact h1 o2 (by simp [ho2])
      · intro g hg
        rcases List.mem_map.mp hg with ⟨o2, ho2, rfl⟩
        exact h2 o2 ho2
    rw [hpick]

/-- A two-army state with an exact tie of effective strength between
nations 1 and 2 at province 0 (nation 1's army is encountered first). -/
def tieSt : GameState :=
  { initState with armies :=
      [{ id := 21, owner := 1, size := 500, location := 0, moving := false,
         destination := none, movementProgress := 0, morale := 1,
         conquestProgress := 0 },
       { id := 22, owner := 2, size := 1000, location := 0, moving := false,
         destination := none, movementProgress := 0, morale := 1 / 2,
         conquestProgress := 0 }] }

/-- Witness for C9: a concrete exact tie (500 × 1.0 against 1000 × 0.5)
is won by the first-encountered nation. -/
theorem battle_tie_first_encountered_witness :
    battleWinnerAt tieSt 0 = some 1 :=
  battle_tie_first_encountered tieSt 0 1 [] [2] (by decide)
    (by decide) (by decide) (by decide)

/-! ### C1: Scenario A, the symmetric two-army battle -/

theorem mem_armiesAt_location {st : GameState} {p : Nat} {a : Army}
    (h : a ∈ armiesAt st p) : (a.location == p) = true := by
  unfold armiesAt at h
  exact (List.mem_filter.mp h).2

theorem casualtyRateAt_cons (st : GameState) (p : Nat) (f f2 : Nat × Rat)
    (fs : List (Nat × Rat)) (h : battleForcesAt st p = f :: f2 :: fs) :
    casualtyRateAt st p = rateFrom (f :: f2 :: fs) (pickFirstMax f (f2 :: fs)) := by
  unfold casualtyRateAt
  rw [h]

theorem resolveCombatAt_eq (st : GameState) (p : Nat) (f f2 : Nat × Rat)
    (fs : List (Nat × Rat)) (h : battleForcesAt st p = f :: f2 :: fs) :
    resolveCombatAt st p =
      { st with
        armies := st.armies.filterMap (fun a =>
          if a.location == p then
            if a.owner == (pickFirstMax f (f2 :: fs)).1 then
              some (applyCasualty
                (rateFrom (f :: f2 :: fs) (pickFirstMax f (f2 :: fs))) a)
            else none
          else some a),
        provinces := st.provinces.set p (some (pickFirstMax f (f2 :: fs)).1) } := by
  unfold resolveCombatAt
  rw [h]

set_option maxRecDepth 10000 in
/-- C1: a battle between exactly two forces of one army each, both of size
1000 and morale 1.0, owned by different nations: the casualty rate is
exactly 0.3, the first-encountered army's nation wins the tie, the winner
survives with 700 troops and morale 0.9 (the "> 0.1" branch, not the
"> 0.3" branch), the losing army is removed, and the province falls to the
winner. -/
theorem scenarioA_battle (st : GameState) (p : Nat) (a1 a2 : Army)
    (hA : armiesAt st p = [a1, a2])
    (hs1 : a1.size = 1000) (hm1 : a1.morale = 1)
    (hs2 : a2.size = 1000) (hm2 : a2.morale = 1)
    (hown : a1.owner ≠ a2.owner) (hp : p < st.provinces.length) :
    casualtyRateAt st p = 3 / 10 ∧
    battleWinnerAt st p = some a1.owner ∧
    armiesAt (resolveCombatAt st p) p =
      [{ a1 with size := 700, morale := 9 / 10 }] ∧
    ownerAt (resolveCombatAt st p) p = some a1.owner := by
  have h21 : (a2.owner == a1.owner) = false :=
    beq_eq_false_iff_ne.mpr (Ne.symm hown)
  have hl1 : (a1.location == p) = true :=
    mem_armiesAt_location (by rw [hA]; simp)
  have hl2 : (a2.location == p) = true :=
    mem_armiesAt_location (by rw [hA]; simp)
  have hoAt : ownersAt st p = [a1.owner, a2.owner] := by
    unfold ownersAt
    rw [hA]
    simp [dedupFirst, dedupFirstAux, List.contains_eq_any_beq, h21]
    exact fun hq => hown hq.symm
  have hstr1 : strengthOf (armiesAt st p) a1.owner = 1000 := by
    rw [hA]
    unfold strengthOf
    simp [h21, hs1, hm1]
  have hstr2 : strengthOf (armiesAt st p) a2.owner = 1000 := by
    rw [hA]
    unfold strengthOf
    simp [beq_eq_false_iff_ne.mpr hown, hs2, hm2]
  have hforce : battleForcesAt st p =
      [(a1.owner, 1000), (a2.owner, 1000)] := by
    unfold battleForcesAt
    rw [hoAt, List.map_cons, List.map_cons, List.map_nil, hstr1, hstr2]
  have hpick : pickFirstMax (a1.owner, (1000 : Rat)) [(a2.owner, 1000)] =
      (a1.owner, 1000) := by
    unfold pickFirstMax
    rw [if_neg (by norm_num)]
    rfl
  have hrate : rateFrom [(a1.owner, (1000 : Rat)), (a2.owner, 1000)]
      (a1.owner, 1000) = 3 / 10 := by
    unfold rateFrom
    have hb1 : ((a1.owner != a1.owner) = false) := by simp
    have hb2 : ((a2.owner != a1.owner) = true) :=
      bne_iff_ne.mpr (Ne.symm hown)
    rw [List.filter_cons, List.filter_cons]
    simp only [hb1, hb2]
    norm_num
  have happly : applyCasualty (3 / 10) a1 =
      { a1 with size := 700, morale := 9 / 10 } := by
    unfold applyCasualty
    rw [hs1, hm1]
    rw [if_neg (by norm_num), if_pos (by norm_num)]
    have e1 : max 100 ((((1000 : Nat) : Rat) * (1 - 3 / 10)).floor.toNat) =
        700 := by decide
    have e2 : max (1 / 2 : Rat) (1 - 1 / 10) = 9 / 10 := by decide
    rw [e1, e2]
  refine ⟨?_, ?_, ?_, ?_⟩
  · rw [casualtyRateAt_cons st p _ _ _ hforce, hpick, hrate]
  · rw [battleWinnerAt_cons st p _ _ hforce (by simp), hpick]
  · rw [resolveCombatAt_eq st p _ _ _ hforce]
    simp only [hpick, hrate]
    unfold armiesAt
    simp only []
    rw [filter_filterMap_comm _ (fun a => a.location == p) ?hq st.armies]
    case hq =>
      intro a b hg
      by_cases hloc : (a.location == p) = true
      · rw [if_pos hloc] at hg
        by_cases how : (a.owner == a1.owner) = true
        · rw [if_pos how] at hg
          injection hg with hg
          subst hg
          unfold applyCasualty
          simpa using hloc
        · rw [if_neg how] at hg
          exact absurd hg (by simp)
      · rw [if_neg hloc] at hg
        injection hg with hg
        subst hg
        rfl
    rw [show st.armies.filter (fun a => a.location == p) = armiesAt st p
      from rfl]
    rw [hA]
    simp only [List.filterMap_cons, List.filterMap_nil, hl1, hl2, h21,
      beq_self_eq_true, if_true, if_false]
    rw [happly]
    simp
  · rw [resolveCombatAt_eq st p _ _ _ hforce]
    simp only [hpick]
    unfold ownerAt
    simp only []
    rw [List.getD_eq_get?, List.get?_set_eq_of_lt _ hp]
    rfl

/-- First Scenario A army (nation 0). -/
def armyA1 : Army :=
  { id := 31, owner := 0, size := 1000, location := 3, moving := false,
    destination := none, movementProgress := 0, morale := 1,
    conquestProgress := 0 }

/-- Second Scenario A army (nation 1). -/
def armyA2 : Army :=
  { id := 32, owner := 1, size := 1000, location := 3, moving := false,
    destination := none, movementProgress := 0, morale := 1,
    conquestProgress := 0 }

/-- Scenario A state: the two fresh armies collide at province 3. -/
def scA : GameState := { initState with armies := [armyA1, armyA2] }

set_option maxRecDepth 10000 in
/-- Witness for C1 at the concrete Scenario A state. -/
theorem scenarioA_battle_witness :
    casualtyRateAt scA 3 = 3 / 10 ∧
    battleWinnerAt scA 3 = some armyA1.owner ∧
    armiesAt (resolveCombatAt scA 3) 3 =
      [{ armyA1 with size := 700, morale := 9 / 10 }] ∧
    ownerAt (resolveCombatAt scA 3) 3 = some armyA1.owner :=
  scenarioA_battle scA 3 armyA1 armyA2 (by decide) rfl rfl rfl rfl
    (by decide) (by decide)

/-! ### C7: battle troop accounting -/

theorem filter_cons_pos {α : Type} (p : α → Bool) (a : α) (l : List α)
    (h : p a = true) : (a :: l).filter p = a :: l.filter p :=
  List.filter_cons_of_pos h

theorem filter_cons_neg {α : Type} (p : α → Bool) (a : α) (l : List α)
    (h : p a = false) : (a :: l).filter p = l.filter p :=
  List.filter_cons_of_neg (by simp [h])

theorem sum_filter_partition (q : Army → Bool) (f : Army → Nat)
    (l : List Army) :
    ((l.filter q).map f).sum + ((l.filter (fun a => !q a)).map f).sum =
      (l.map f).sum := by
  induction l with
  | nil => simp
  | cons a l ih =>
    by_cases hq : q a = true
    · rw [filter_cons_pos q a l hq,
        filter_cons_neg (fun a => !q a) a l (by simp [hq])]
      simp only [List.map_cons, List.sum_cons]
      omega
    · have hq' : q a = false := by simp at hq; exact hq
      rw [filter_cons_neg q a l hq',
        filter_cons_pos (fun a => !q a) a l (by simp [hq'])]
      simp only [List.map_cons, List.sum_cons]
      omega

theorem sum_map_sub (f g : Army → Nat) (l : List Army)
    (h : ∀ a ∈ l, g a ≤ f a) :
    (l.map g).sum + (l.map (fun a => f a - g a)).sum = (l.map f).sum := by
  induction l with
  | nil => simp
  | cons a l ih =>
    have ha := h a (by simp)
    have ih' := ih (fun b hb => h b (by simp [hb]))
    simp only [List.map_cons, List.sum_cons]
    omega

theorem filterMap_battle_on_located (l : List Army) (p w : Nat) (r : Rat)
    (hall : ∀ a ∈ l, (a.location == p) = true) :
    l.filterMap (fun a =>
      if a.location == p then
        if a.owner == w then some (applyCasualty r a) else none
      else some a) =
    (l.filter (fun a => a.owner == w)).map (applyCasualty r) := by
  induction l with
  | nil => rfl
  | cons a l ih =>
    have hl := hall a (by simp)
    have ih' := ih (fun b hb => hall b (by simp [hb]))
    by_cases hw : (a.owner == w) = true
    · have fa : (if a.location == p then
          if a.owner == w then some (applyCasualty r a) else none
        else some a) = some (applyCasualty r a) := by
        rw [if_pos hl, if_pos hw]
      rw [List.filterMap_cons, fa]
      rw [filter_cons_pos (fun a => a.owner == w) a l hw, List.map_cons, ih']
    · have hw' : (a.owner == w) = false := by simpa using hw
      have fa : (if a.location == p then
          if a.owner == w then some (applyCasualty r a) else none
        else some a) = none := by
        rw [if_pos hl, if_neg (by simp [hw'])]
      rw [List.filterMap_cons, fa]
      rw [filter_cons_neg (fun a => a.owner == w) a l hw', ih']

theorem strengthOf_nonneg (l : List Army) (o : Nat)
    (h : ∀ a ∈ l, 0 ≤ a.morale) : 0 ≤ strengthOf l o := by
  unfold strengthOf
  refine List.sum_nonneg ?_
  intro x hx
  rcases List.mem_map.mp hx with ⟨a, ha, rfl⟩
  have := h a (List.mem_filter.mp ha).1
  positivity

theorem pickFirstMax_mem (b : Nat × Rat) (l : List (Nat × Rat)) :
    pickFirstMax b l = b ∨ pickFirstMax b l ∈ l := by
  induction l generalizing b with
  | nil => left; rfl
  | cons f fs ih =>
    unfold pickFirstMax
    by_cases hc : b.2 < f.2
    · rw [if_pos hc]
      rcases ih f with h | h
      · right; simp [h]
      · right; simp [h]
    · rw [if_neg hc]
      rcases ih b with h | h
      · left; exact h
      · right; simp [h]

theorem battleForces_snd_nonneg (st : GameState) (p : Nat)
    (hmor : ∀ a ∈ armiesAt st p, 0 ≤ a.morale) :
    ∀ f ∈ battleForcesAt st p, 0 ≤ f.2 := by
  intro f hf
  rcases List.mem_map.mp hf with ⟨o, ho, rfl⟩
  exact strengthOf_nonneg _ o hmor

theorem casualtyRate_bounds (st : GameState) (p : Nat)
    (f f2 : Nat × Rat) (fs : List (Nat × Rat))
    (hF : battleForcesAt st p = f :: f2 :: fs)
    (hmor : ∀ a ∈ armiesAt st p, 0 ≤ a.morale) :
    0 ≤ casualtyRateAt st p ∧ casualtyRateAt st p ≤ 1 / 2 := by
  rw [casualtyRateAt_cons st p f f2 fs hF]
  unfold rateFrom
  constructor
  · refine le_min (by norm_num) ?_
    have hS : 0 ≤ (((f :: f2 :: fs).filter
        (fun g => g.1 != (pickFirstMax f (f2 :: fs)).1)).map (·.2)).sum := by
      refine List.sum_nonneg ?_
      intro x hx
      rcases List.mem_map.mp hx with ⟨g, hg, rfl⟩
      refine battleForces_snd_nonneg st p hmor g ?_
      rw [hF]
      exact (List.mem_filter.mp hg).1
    have hw : 0 ≤ (pickFirstMax f (f2 :: fs)).2 := by
      refine battleForces_snd_nonneg st p hmor _ ?_
      rw [hF]
      rcases pickFirstMax_mem f (f2 :: fs) with h | h
      · rw [h]; simp
      · simp [h]
    have := div_nonneg hS hw
    positivity
  · exact min_le_left _ _

theorem applyCasualty_size_le (r : Rat) (a : Army) (hr0 : 0 ≤ r)
    (hsz : 100 ≤ a.size) : (applyCasualty r a).size ≤ a.size := by
  unfold applyCasualty
  simp only
  refine max_le hsz ?_
  have h1 : ((a.size : Rat) * (1 - r)) ≤ ((a.size : Int) : Rat) := by
    push_cast
    nlinarith [Nat.cast_nonneg (α := Rat) a.size]
  have h2 : ((a.size : Rat) * (1 - r)).floor ≤ (a.size : Int) := by
    calc ((a.size : Rat) * (1 - r)).floor
        = Int.floor ((a.size : Rat) * (1 - r)) := rfl
      _ ≤ Int.floor (((a.size : Int) : Rat)) := Int.floor_mono h1
      _ = (a.size : Int) := Int.floor_intCast _
  exact Int.toNat_le.mpr h2

/-- Amended C7: for every resolved battle, the total number of troops
removed at the location — the decrease of the total troop count there —
equals the sum of the pre-battle sizes of the losing nations' destroyed
armies plus the casualties taken by the winning nation's armies (stated
additively: survivors + losers' sizes + winner casualties = pre-battle
total). -/
theorem battle_troops_accounting (st : GameState) (p : Nat) (w : Nat)
    (hw : battleWinnerAt st p = some w)
    (hsz : ∀ a ∈ armiesAt st p, 100 ≤ a.size)
    (hmor : ∀ a ∈ armiesAt st p, 0 ≤ a.morale) :
    ((armiesAt (resolveCombatAt st p) p).map (fun a => a.size)).sum +
      (((armiesAt st p).filter (fun a => !(a.owner == w))).map
        (fun a => a.size)).sum +
      (((armiesAt st p).filter (fun a => a.owner == w)).map
        (fun a => a.size - (applyCasualty (casualtyRateAt st p) a).size)).sum =
      ((armiesAt st p).map (fun a => a.size)).sum := by
  rcases hF : battleForcesAt st p with _ | ⟨f, _ | ⟨f2, fs⟩⟩
  · unfold battleWinnerAt at hw
    rw [hF] at hw
    exact absurd hw (by simp)
  · unfold battleWinnerAt at hw
    rw [hF] at hw
    exact absurd hw (by simp)
  · have hw' : (pickFirstMax f (f2 :: fs)).1 = w := by
      unfold battleWinnerAt at hw
      rw [hF] at hw
      injection hw
    have hco : armiesAt (resolveCombatAt st p) p =
        ((armiesAt st p).filter (fun a => a.owner == w)).map
          (applyCasualty (casualtyRateAt st p)) := by
      rw [resolveCombatAt_eq st p f f2 fs hF]
      unfold armiesAt
      simp only []
      rw [filter_filterMap_comm _ (fun a => a.location == p) ?hq st.armies]
      case hq =>
        intro a b hg
        by_cases hloc : (a.location == p) = true
        · rw [if_pos hloc] at hg
          by_cases how : (a.owner == (pickFirstMax f (f2 :: fs)).1) = true
          · rw [if_pos how] at hg
            injection hg with hg
            subst hg
            unfold applyCasualty
            simp [hloc]
          · rw [if_neg how] at hg
            exact absurd hg (by simp)
        · rw [if_neg hloc] at hg
          injection hg with hg
          subst hg
          rfl
      rw [show st.armies.filter (fun a => a.location == p) = armiesAt st p
        from rfl]
      rw [filterMap_battle_on_located _ p _ _
        (fun a ha => mem_armiesAt_location ha)]
      rw [hw', casualtyRateAt_cons st p f f2 fs hF]
    rw [hco, List.map_map]
    have hrb := casualtyRate_bounds st p f f2 fs hF hmor
    have hle : ∀ a ∈ (armiesAt st p).filter (fun a => a.owner == w),
        (applyCasualty (casualtyRateAt st p) a).size ≤ a.size := by
      intro a ha
      exact applyCasualty_size_le _ a hrb.1 (hsz a (List.mem_filter.mp ha).1)
    have h1 := sum_map_sub (fun a => a.size)
      (fun a => (applyCasualty (casualtyRateAt st p) a).size)
      ((armiesAt st p).filter (fun a => a.owner == w)) hle
    have h2 := sum_filter_partition (fun a => a.owner == w)
      (fun a => a.size) (armiesAt st p)
    rw [show ((armiesAt st p).filter (fun a => a.owner == w)).map
        ((fun a => a.size) ∘ applyCasualty (casualtyRateAt st p)) =
        ((armiesAt st p).filter (fun a => a.owner == w)).map
        (fun a => (applyCasualty (casualtyRateAt st p) a).size) from rfl]
    beta_reduce at h1
    omega

/-- Counterexample state for the claim that a battle removes exactly the
losers' troops: two fresh 1000-troop, morale-1.0 armies of nations 0 and 1
meet at province 3. -/
def cexC7 : GameState :=
  { initState with armies :=
      [{ id := 41, owner := 0, size := 1000, location := 3, moving := false,
         destination := none, movementProgress := 0, morale := 1,
         conquestProgress := 0 },
       { id := 42, owner := 1, size := 1000, location := 3, moving := false,
         destination := none, movementProgress := 0, morale := 1,
         conquestProgress := 0 }] }

set_option maxRecDepth 10000 in
/-- Counterexample to C7 as stated: in the battle at province 3 of `cexC7`
the pre-battle troop total is 2000 and the post-battle total is 700, so the
battle removes 1300 troops, while the losing nation's armies held only 1000
troops — the winner's 300 casualties are removed by the battle as well. -/
theorem battle_removed_eq_losers_counterexample :
    battleWinnerAt cexC7 3 = some 0 ∧
    ((armiesAt cexC7 3).map (fun a => a.size)).sum = 2000 ∧
    ((armiesAt (resolveCombatAt cexC7 3) 3).map (fun a => a.size)).sum = 700 ∧
    (((armiesAt cexC7 3).filter (fun a => !(a.owner == 0))).map
      (fun a => a.size)).sum = 1000 ∧
    ¬(((armiesAt cexC7 3).map (fun a => a.size)).sum -
        ((armiesAt (resolveCombatAt cexC7 3) 3).map (fun a => a.size)).sum =
      (((armiesAt cexC7 3).filter (fun a => !(a.owner == 0))).map
        (fun a => a.size)).sum) := by
  refine ⟨by decide, by decide, by decide, by decide, by decide⟩

set_option maxRecDepth 10000 in
/-- Witness for the amended C7 at the concrete battle of `cexC7`:
700 survivors + 1000 destroyed + 300 winner casualties = 2000. -/
theorem battle_troops_accounting_witness :
    ((armiesAt (resolveCombatAt cexC7 3) 3).map (fun a => a.size)).sum +
      (((armiesAt cexC7 3).filter (fun a => !(a.owner == 0))).map
        (fun a => a.size)).sum +
      (((armiesAt cexC7 3).filter (fun a => a.owner == 0)).map
        (fun a => a.size -
          (applyCasualty (casualtyRateAt cexC7 3) a).size)).sum =
      ((armiesAt cexC7 3).map (fun a => a.size)).sum :=
  battle_troops_accounting cexC7 3 0 (by decide) (by decide) (by decide)

/-! ### C4: Scenario B, two-tick conquest -/

theorem map_eq_self_of_fix (g : Army → Army) (l : List Army)
    (h : ∀ a ∈ l, g a = a) : l.map g = l := by
  induction l with
  | nil => rfl
  | cons a l ih =>
    rw [List.map_cons, h a (by simp), ih (fun b hb => h b (by simp [hb]))]

theorem setCP_pred (p' p n : Nat) (a : Army) :
    (((if a.location == p' && !a.moving then { a with conquestProgress := n }
        else a).location == p) &&
      !(if a.location == p' && !a.moving then { a with conquestProgress := n }
        else a).moving) = (a.location == p && !a.moving) := by
  by_cases h : (a.location == p' && !a.moving) = true <;> simp [h]

theorem nmAt_setCP (l : List Army) (p p' n : Nat) :
    (l.map (fun b => if b.location == p' && !b.moving then
        { b with conquestProgress := n } else b)).filter
      (fun a => a.location == p && !a.moving) =
    (l.filter (fun a => a.location == p && !a.moving)).map
      (fun b => if b.location == p' && !b.moving then
        { b with conquestProgress := n } else b) :=
  filter_map_comm _ _ (fun a => setCP_pred p' p n a) l

theorem nmAt_conquest_update (st : GameState) (p p' n : Nat) (hne : p' ≠ p) :
    nmAt { st with armies := st.armies.map (fun b =>
      if b.location == p' && !b.moving then { b with conquestProgress := n }
      else b) } p = nmAt st p := by
  show (st.armies.map (fun b =>
      if b.location == p' && !b.moving then { b with conquestProgress := n }
      else b)).filter (fun a => a.location == p && !a.moving) = nmAt st p
  rw [nmAt_setCP st.armies p p' n]
  exact map_eq_self_of_fix _ _ (fun a ha => by
    have h2 := (List.mem_filter.mp ha).2
    simp only [Bool.and_eq_true, beq_iff_eq] at h2
    have hz : (a.location == p') = false :=
      beq_eq_false_iff_ne.mpr (by rw [h2.1]; exact Ne.symm hne)
    rw [hz]
    simp)

theorem nmAt_conquest_update_self (st : GameState) (p n : Nat) (a : Army)
    (hnm : nmAt st p = [a]) :
    nmAt { st with armies := st.armies.map (fun b =>
      if b.location == p && !b.moving then { b with conquestProgress := n }
      else b) } p = [{ a with conquestProgress := n }] := by
  show (st.armies.map (fun b =>
      if b.location == p && !b.moving then { b with conquestProgress := n }
      else b)).filter (fun x => x.location == p && !x.moving) =
    [{ a with conquestProgress := n }]
  rw [nmAt_setCP st.armies p p n]
  rw [show st.armies.filter (fun x => x.location == p && !x.moving) =
    nmAt st p from rfl, hnm]
  have hq : (a.location == p && !a.moving) = true := by
    have : a ∈ nmAt st p := by rw [hnm]; simp
    exact (List.mem_filter.mp this).2
  simp only [List.map_cons, List.map_nil]
  rw [if_pos hq]

theorem conquestAt_of_single (st : GameState) (p : Nat) (a : Army)
    (hnm : nmAt st p = [a]) :
    conquestAt st p =
      (if ownerAt st p ≠ some a.owner then
        if 2 ≤ a.conquestProgress + 1 then
          { st with
            armies := st.armies.map (fun b =>
              if b.location == p && !b.moving then
                { b with conquestProgress := 0 } else b),
            provinces := st.provinces.set p (some a.owner) }
        else
          { st with armies := st.armies.map (fun b =>
              if b.location == p && !b.moving then
                { b with conquestProgress := a.conquestProgress + 1 }
              else b) }
      else
        { st with armies := st.armies.map (fun b =>
            if b.location == p && !b.moving then
              { b with conquestProgress := 0 } else b) }) := by
  unfold conquestAt
  rw [hnm]

theorem ownerAt_armies_update (st : GameState) (l : List Army) (p : Nat) :
    ownerAt { st with armies := l } p = ownerAt st p := rfl

theorem ownerAt_set_ne (st : GameState) (l : List Army) (p' p : Nat)
    (v : Option Nat) (hne : p' ≠ p) :
    ownerAt { st with armies := l, provinces := st.provinces.set p' v } p =
      ownerAt st p := by
  show (st.provinces.set p' v).getD p none = st.provinces.getD p none
  rw [List.getD_eq_get?, List.get?_set_ne _ _ hne, ← List.getD_eq_get?]

theorem ownerAt_set_eq (st : GameState) (l : List Army) (p : Nat)
    (v : Option Nat) (hp : p < st.provinces.length) :
    ownerAt { st with armies := l, provinces := st.provinces.set p v } p =
      v := by
  show (st.provinces.set p v).getD p none = v
  rw [List.getD_eq_get?, List.get?_set_eq_of_lt _ hp]
  rfl

theorem conquestAt_provinces_length (st : GameState) (p' : Nat) :
    (conquestAt st p').provinces.length = st.provinces.length := by
  unfold conquestAt
  split
  · split
    · split
      · exact List.length_set _ _ _
      · rfl
    · rfl
  · rfl
  · rfl

theorem conquestAt_frame (st : GameState) (p p' : Nat) (hne : p' ≠ p) :
    nmAt (conquestAt st p') p = nmAt st p ∧
    ownerAt (conquestAt st p') p = ownerAt st p := by
  unfold conquestAt
  split
  · split
    · split
      · constructor
        · exact nmAt_conquest_update _ p p' 0 hne
        · exact ownerAt_set_ne st _ p' p _ hne
      · exact ⟨nmAt_conquest_update _ p p' _ hne, rfl⟩
    · exact ⟨nmAt_conquest_update _ p p' 0 hne, rfl⟩
  · exact ⟨rfl, rfl⟩
  · exact ⟨nmAt_conquest_update _ p p' 0 hne, rfl⟩

theorem foldl_conquest_frame (l : List Nat) (st : GameState) (p : Nat)
    (hnotin : p ∉ l) :
    nmAt (l.foldl conquestAt st) p = nmAt st p ∧
    ownerAt (l.foldl conquestAt st) p = ownerAt st p ∧
    (l.foldl conquestAt st).provinces.length = st.provinces.length := by
  induction l generalizing st with
  | nil => exact ⟨rfl, rfl, rfl⟩
  | cons p' l ih =>
    have hne : p' ≠ p := fun h => hnotin (by simp [h])
    have hstep := conquestAt_frame st p p' hne
    have hrest := ih (conquestAt st p') (fun h => hnotin (by simp [h]))
    rw [List.foldl_cons]
    refine ⟨hrest.1.trans hstep.1, hrest.2.1.trans hstep.2, ?_⟩
    rw [hrest.2.2]
    exact conquestAt_provinces_length st p'

theorem processConquest_decomp (st : GameState) (p : Nat) (hp49 : p < 49) :
    processConquest st =
      (List.range' (p + 1) (48 - p)).foldl conquestAt
        (conquestAt ((List.range' 0 p).foldl conquestAt st) p) := by
  unfold processConquest
  have hsplit : List.range 49 =
      List.range' 0 p ++ p :: List.range' (p + 1) (48 - p) := by
    rw [List.range_eq_range']
    rw [show (49 : Nat) = (49 - p) + p from by omega]
    rw [← List.range'_append]
    congr 1
    · rw [show (0 + 1 * p : Nat) = p from by omega]
      rw [show (49 - p : Nat) = (48 - p) + 1 from by omega]
      rw [List.range'_succ]
  rw [hsplit, List.foldl_append, List.foldl_cons]

theorem processConquest_single_step (st : GameState) (p : Nat) (a : Army)
    (hnm : nmAt st p = [a]) (hown : ownerAt st p ≠ some a.owner)
    (hp49 : p < 49) (hlow : a.conquestProgress + 1 < 2) :
    nmAt (processConquest st) p =
      [{ a with conquestProgress := a.conquestProgress + 1 }] ∧
    ownerAt (processConquest st) p = ownerAt st p := by
  rw [processConquest_decomp st p hp49]
  have hpre := foldl_conquest_frame (List.range' 0 p) st p
    (by rw [List.mem_range'_1]; omega)
  set st1 := (List.range' 0 p).foldl conquestAt st with hst1
  have hnm1 : nmAt st1 p = [a] := hpre.1.trans hnm
  have hown1 : ownerAt st1 p ≠ some a.owner := by
    rw [hpre.2.1]; exact hown
  have hstep : conquestAt st1 p = { st1 with armies := st1.armies.map (fun b =>
      if b.location == p && !b.moving then
        { b with conquestProgress := a.conquestProgress + 1 } else b) } := by
    rw [conquestAt_of_single st1 p a hnm1, if_pos hown1, if_neg (by omega)]
  have hpost := foldl_conquest_frame (List.range' (p + 1) (48 - p))
    (conquestAt st1 p) p (by rw [List.mem_range'_1]; omega)
  refine ⟨?_, ?_⟩
  · rw [hpost.1, hstep]
    exact nmAt_conquest_update_self st1 p _ a hnm1
  · rw [hpost.2.1, hstep, ownerAt_armies_update, hpre.2.1]

theorem processConquest_single_capture (st : GameState) (p : Nat) (a : Army)
    (hnm : nmAt st p = [a]) (hown : ownerAt st p ≠ some a.owner)
    (hp49 : p < 49) (hp : p < st.provinces.length)
    (hhigh : 2 ≤ a.conquestProgress + 1) :
    nmAt (processConquest st) p = [{ a with conquestProgress := 0 }] ∧
    ownerAt (processConquest st) p = some a.owner := by
  rw [processConquest_decomp st p hp49]
  have hpre := foldl_conquest_frame (List.range' 0 p) st p
    (by rw [List.mem_range'_1]; omega)
  set st1 := (List.range' 0 p).foldl conquestAt st with hst1
  have hnm1 : nmAt st1 p = [a] := hpre.1.trans hnm
  have hown1 : ownerAt st1 p ≠ some a.owner := by
    rw [hpre.2.1]; exact hown
  have hp1 : p < st1.provinces.length := by
    rw [hpre.2.2]; exact hp
  have hstep : conquestAt st1 p = { st1 with
      armies := st1.armies.map (fun b =>
        if b.location == p && !b.moving then
          { b with conquestProgress := 0 } else b),
      provinces := st1.provinces.set p (some a.owner) } := by
    rw [conquestAt_of_single st1 p a hnm1, if_pos hown1, if_pos hhigh]
  have hpost := foldl_conquest_frame (List.range' (p + 1) (48 - p))
    (conquestAt st1 p) p (by rw [List.mem_range'_1]; omega)
  refine ⟨?_, ?_⟩
  · rw [hpost.1, hstep]
    exact nmAt_conquest_update_self
      { st1 with provinces := st1.provinces.set p (some a.owner) } p 0 a hnm1
  · rw [hpost.2.1, hstep]
    exact ownerAt_set_eq st1 _ p (some a.owner) hp1

theorem processConquest_provinces_length (st : GameState) :
    (processConquest st).provinces.length = st.provinces.length := by
  unfold processConquest
  generalize List.range 49 = l
  induction l generalizing st with
  | nil => rfl
  | cons p' l ih =>
    rw [List.foldl_cons, ih]
    exact conquestAt_provinces_length st p'

/-- C4: Scenario B — an army with conquest progress 0 that is the sole
non-moving army at a foreign province for two consecutive conquest phases:
the first phase raises its progress to 1 and leaves ownership unchanged;
the second phase transfers the province to the army's nation and resets
the progress to 0 within the same phase. -/
theorem conquest_two_ticks (st : GameState) (p : Nat) (a : Army)
    (hnm : nmAt st p = [a]) (hcp : a.conquestProgress = 0)
    (hown : ownerAt st p ≠ some a.owner)
    (hp49 : p < 49) (hp : p < st.provinces.length) :
    nmAt (processConquest st) p = [{ a with conquestProgress := 1 }] ∧
    ownerAt (processConquest st) p = ownerAt st p ∧
    nmAt (processConquest (processConquest st)) p =
      [{ a with conquestProgress := 0 }] ∧
    ownerAt (processConquest (processConquest st)) p = some a.owner := by
  have h1 := processConquest_single_step st p a hnm hown hp49 (by omega)
  rw [hcp] at h1
  have hlen : (processConquest st).provinces.length = st.provinces.length :=
    processConquest_provinces_length st
  have h2 := processConquest_single_capture (processConquest st) p
    { a with conquestProgress := 1 } h1.1
    (by rw [h1.2]; exact hown) hp49 (by rw [hlen]; exact hp) (by simp)
  refine ⟨h1.1, h1.2, ?_, h2.2⟩
  rw [h2.1]

/-- Scenario B army: a fresh army of nation 0 sitting at the neutral
province 7. -/
def armyB : Army :=
  { id := 51, owner := 0, size := 1000, location := 7, moving := false,
    destination := none, movementProgress := 0, morale := 1,
    conquestProgress := 0 }

/-- Scenario B state. -/
def scB : GameState := { initState with armies := [armyB] }

set_option maxRecDepth 10000 in
/-- Witness for C4 at the concrete Scenario B state. -/
theorem conquest_two_ticks_witness :
    nmAt (processConquest scB) 7 = [{ armyB with conquestProgress := 1 }] ∧
    ownerAt (processConquest scB) 7 = ownerAt scB 7 ∧
    nmAt (processConquest (processConquest scB)) 7 =
      [{ armyB with conquestProgress := 0 }] ∧
    ownerAt (processConquest (processConquest scB)) 7 = some armyB.owner :=
  conquest_two_ticks scB 7 armyB (by decide) rfl (by decide) (by decide)
    (by decide)

/-! ### C8: the AI offense target choice -/

/-- The offense score as the claim words it: +15 if the neighbour has any
owner, else +10; plus +20 with no defenders present, +10 when the
attacker's effective strength exceeds 1.2 times the defenders' total, +5
when it merely exceeds it, −10 otherwise; plus, for each capital province
(0, 9, 18) still foreign to the nation (held by another nation),
max(0, 10 − Manhattan distance from the neighbour to that capital). -/
def specOffenseScore (st : GameState) (nationId : Nat) (army : Army)
    (nb : Nat) : Int :=
  (if (ownerAt st nb).isSome then 15 else 10) +
  (if ((armiesAt st nb).map (fun b => (b.size : Rat) * b.morale)).sum == 0
    then 20
   else if ((armiesAt st nb).map (fun b => (b.size : Rat) * b.morale)).sum *
      (6 / 5) < (army.size : Rat) * army.morale then 10
   else if ((armiesAt st nb).map (fun b => (b.size : Rat) * b.morale)).sum <
      (army.size : Rat) * army.morale then 5
   else -10) +
  (([0, 9, 18] : List Nat).map (fun c =>
    match ownerAt st c with
    | some o => if o ≠ nationId then max 0 (10 - (gridDist nb c : Int)) else 0
    | none => 0)).sum

/-- Keep the earlier of two scored candidates on ties: the claim's "the
first neighbour attaining the maximum score is selected". -/
def specKeepMax (f : Nat × Int) : Option (Nat × Int) → Option (Nat × Int)
  | none => some f
  | some g => if g.2 ≤ f.2 then some f else some g

/-- The first scored neighbour attaining the maximum score. -/
def specFirstMax : List (Nat × Int) → Option (Nat × Int)
  | [] => none
  | f :: fs => specKeepMax f (specFirstMax fs)

/-- Commit to the best neighbour only when its score strictly exceeds the
fixed threshold 5. -/
def specCommit : Option (Nat × Int) → Option Nat
  | some g => if 5 < g.2 then some g.1 else none
  | none => none

/-- The claim's offense selection: score every neighbour not owned by the
nation, take the first neighbour attaining the maximum score, and move
only if that score strictly exceeds 5. -/
def specSelect (st : GameState) (nationId : Nat) (army : Army) :
    Option Nat :=
  specCommit (specFirstMax (((getNeighbors army.location).filter
    (fun nb => !(ownerAt st nb == some nationId))).map
    (fun nb => (nb, specOffenseScore st nationId army nb))))

theorem capTerm_eq (st : GameState) (n : Nat) (v : Int) (c : Nat)
    (acc : Int) :
    (if ownerAt st c ≠ some n ∧ ownerAt st c ≠ none then acc + v else acc) =
    acc + (match ownerAt st c with
           | some o => if o ≠ n then v else 0
           | none => 0) := by
  rcases h : ownerAt st c with _ | o
  · simp
  · by_cases e : o = n
    · subst e
      simp
    · simp [e]

theorem specOffenseScore_eq (st : GameState) (n : Nat) (army : Army)
    (nb : Nat) :
    specOffenseScore st n army nb = scoreOf st n army nb := by
  simp only [specOffenseScore, scoreOf]
  simp only [List.foldl_cons, List.foldl_nil, List.map_cons, List.map_nil,
    List.sum_cons, List.sum_nil]
  rw [capTerm_eq st n (max 0 (10 - (gridDist nb 0 : Int))) 0 0]
  rw [capTerm_eq st n (max 0 (10 - (gridDist nb 9 : Int))) 9 _]
  rw [capTerm_eq st n (max 0 (10 - (gridDist nb 18 : Int))) 18 _]
  ring

theorem foldl_skip (l : List Nat) (pskip : Nat → Bool)
    (f : (Option Nat × Int) → Nat → (Option Nat × Int))
    (b : Option Nat × Int) :
    l.foldl (fun acc x => if pskip x then acc else f acc x) b =
      (l.filter (fun x => !pskip x)).foldl f b := by
  induction l generalizing b with
  | nil => rfl
  | cons x xs ih =>
    by_cases hx : pskip x = true
    · rw [List.foldl_cons, if_pos hx,
        filter_cons_neg (fun x => !pskip x) x xs (by simp [hx]), ih]
    · have hx' : pskip x = false := by simp at hx; exact hx
      rw [List.foldl_cons, if_neg (by simp [hx']),
        filter_cons_pos (fun x => !pskip x) x xs (by simp [hx']),
        List.foldl_cons, ih]

/-- The accumulator update that `stepBest` describes. -/
def stepBest (t : Option Nat) (s : Int) :
    Option (Nat × Int) → Option Nat × Int
  | none => (t, s)
  | some g => if s < g.2 then (some g.1, g.2) else (t, s)

theorem foldl_best_eq_specFirstMax (l : List (Nat × Int)) (t : Option Nat)
    (s : Int) :
    l.foldl (fun best f => if best.2 < f.2 then (some f.1, f.2) else best)
        (t, s) = stepBest t s (specFirstMax l) := by
  induction l generalizing t s with
  | nil => rfl
  | cons f fs ih =>
    simp only [List.foldl_cons, specFirstMax]
    by_cases hc : s < f.2
    · rw [if_pos hc, ih]
      cases hg : specFirstMax fs with
      | none =>
        simp only [specKeepMax, stepBest]
        rw [if_pos hc]
      | some g =>
        simp only [specKeepMax, stepBest]
        by_cases h1 : g.2 ≤ f.2
        · rw [if_pos h1, if_neg (by omega)]
          simp only [stepBest]
          rw [if_pos hc]
        · rw [if_neg h1, if_pos (by omega)]
          simp only [stepBest]
          rw [if_pos (by omega)]
    · rw [if_neg hc, ih]
      cases hg : specFirstMax fs with
      | none =>
        simp only [specKeepMax, stepBest]
        rw [if_neg hc]
      | some g =>
        simp only [specKeepMax, stepBest]
        by_cases h1 : g.2 ≤ f.2
        · rw [if_pos h1, if_neg (by omega)]
          simp only [stepBest]
          rw [if_neg hc]
        · rw [if_neg h1]

/-- C8: for every AI nation and every idle army with no defense-priority
neighbour, the chosen target is exactly the claim's offense selection:
score each neighbour not owned by the nation (ownership bonus, defender
comparison, capital proximity), keep the first neighbour attaining the
maximum, and move only when that score strictly exceeds 5 — otherwise the
army stays idle. -/
theorem ai_offense_selection (st : GameState) (nationId : Nat) (army : Army)
    (hdef : ∀ nb ∈ getNeighbors army.location,
      (ownerAt st nb == some nationId &&
       !((armiesAt st nb).filter (fun b => b.owner != nationId)).isEmpty) =
        false) :
    findBestTarget st nationId army = specSelect st nationId army := by
  simp only [findBestTarget]
  have hf : (getNeighbors army.location).find? (fun nb =>
      ownerAt st nb == some nationId &&
      !((armiesAt st nb).filter (fun b => b.owner != nationId)).isEmpty) =
      none :=
    List.find?_eq_none.mpr (fun x hx => by rw [hdef x hx]; simp)
  rw [hf]
  show (if 5 < ((getNeighbors army.location).foldl (fun best nb =>
      if ownerAt st nb == some nationId then best
      else if best.2 < scoreOf st nationId army nb then
        (some nb, scoreOf st nationId army nb)
      else best) ((none : Option Nat), (-999 : Int))).2 then
      ((getNeighbors army.location).foldl (fun best nb =>
      if ownerAt st nb == some nationId then best
      else if best.2 < scoreOf st nationId army nb then
        (some nb, scoreOf st nationId army nb)
      else best) ((none : Option Nat), (-999 : Int))).1 else none) =
    specSelect st nationId army
  rw [foldl_skip (getNeighbors army.location)
    (fun nb => ownerAt st nb == some nationId)
    (fun best nb => if best.2 < scoreOf st nationId army nb then
      (some nb, scoreOf st nationId army nb) else best)
    ((none : Option Nat), (-999 : Int))]
  rw [← List.foldl_map (fun nb => (nb, scoreOf st nationId army nb))
    (fun best f => if best.2 < f.2 then (some f.1, f.2) else best)
    ((getNeighbors army.location).filter
      (fun nb => !(ownerAt st nb == some nationId)))
    ((none : Option Nat), (-999 : Int))]
  rw [foldl_best_eq_specFirstMax]
  unfold specSelect
  rw [show (fun nb => (nb, specOffenseScore st nationId army nb)) =
      (fun nb => (nb, scoreOf st nationId army nb)) from
    funext (fun nb => by rw [specOffenseScore_eq])]
  cases hg : specFirstMax (((getNeighbors army.location).filter
      (fun nb => !(ownerAt st nb == some nationId))).map
      (fun nb => (nb, scoreOf st nationId army nb))) with
  | none =>
    simp only [stepBest, specCommit]
    rw [if_neg (by omega)]
  | some g =>
    simp only [stepBest, specCommit]
    by_cases h1 : (-999 : Int) < g.2
    · rw [if_pos h1]
    · rw [if_neg h1]
      rw [if_neg (by omega), if_neg (by omega)]

/-- Scenario D map: only province 41 is owned (by nation 2); in particular
the capital provinces 0, 9, 18 are unowned, so no proximity bonus
applies. -/
def provD : List (Option Nat) :=
  (List.range 49).map (fun p => if p = 41 then some 2 else none)

/-- Scenario D attacker: an army of nation 1 at the corner province 48,
whose only neighbours are 47 (neutral, undefended) and 41 (enemy,
defended). -/
def armyD : Army :=
  { id := 61, owner := 1, size := 1000, location := 48, moving := false,
    destination := none, movementProgress := 0, morale := 1,
    conquestProgress := 0 }

/-- Scenario D state: neighbour 47 scores 10 + 20 = 30, neighbour 41
scores 15 − 10 = 5 against its 2000-troop defender. -/
def stD : GameState :=
  { initState with
      provinces := provD,
      armies := [armyD,
        { id := 62, owner := 2, size := 2000, location := 41,
          moving := false, destination := none, movementProgress := 0,
          morale := 1, conquestProgress := 0 }] }

/-- Scenario D variant in which both neighbours score at most 5: 47 is now
also strongly defended. -/
def stD2 : GameState :=
  { initState with
      provinces := provD,
      armies := [armyD,
        { id := 62, owner := 2, size := 2000, location := 41,
          moving := false, destination := none, movementProgress := 0,
          morale := 1, conquestProgress := 0 },
        { id := 63, owner := 0, size := 2000, location := 47,
          moving := false, destination := none, movementProgress := 0,
          morale := 1, conquestProgress := 0 }] }

set_option maxRecDepth 10000 in
/-- Witness for C8 at the Scenario D states: the undefended neutral
neighbour 47 (score 30) is chosen over the defended enemy neighbour 41
(score 5, at the threshold but not exceeding it), and when both neighbours
score at most 5 the army stays idle. -/
theorem ai_offense_selection_witness :
    findBestTarget stD 1 armyD = specSelect stD 1 armyD ∧
    findBestTarget stD 1 armyD = some 47 ∧
    scoreOf stD 1 armyD 47 = 30 ∧
    scoreOf stD 1 armyD 41 = 5 ∧
    findBestTarget stD2 1 armyD = none :=
  ⟨ai_offense_selection stD 1 armyD (by decide), by decide, by decide,
    by decide, by decide⟩

/-! ### C10: move orders and conquest progress -/

/-- The army fields a move order must not touch: identity, owner, size,
morale and conquest progress. -/
def armyCore (a : Army) : Nat × Nat × Nat × Rat × Nat :=
  (a.id, a.owner, a.size, a.morale, a.conquestProgress)

theorem armyCore_stepArmy (a : Army) : armyCore (stepArmy a) = armyCore a := by
  unfold stepArmy
  split
  · split <;> rfl
  · rfl

theorem map_core_set (l : List Army) (i : Nat) (a b : Army)
    (hget : l.get? i = some a) (hcore : armyCore b = armyCore a) :
    (l.set i b).map armyCore = l.map armyCore := by
  induction l generalizing i with
  | nil => rfl
  | cons x xs ih =>
    cases i with
    | zero =>
      injection hget with hget
      subst hget
      rw [List.set_cons_zero, List.map_cons, List.map_cons, hcore]
    | succ j =>
      rw [List.set_cons_succ, List.map_cons, List.map_cons,
        ih j (by simpa using hget)]

/-- The no-build AI randomness oracle used for the concrete run. -/
def noBuild : Nat → Bool := fun _ => false

/-- A concrete reachable run: the player army marches from province 0 to
the neutral province 7, accrues one conquest point there, and is then
ordered on to the enemy province 14 while its progress counter still
reads 1. -/
def runStale : GameState :=
  processTick noBuild (processTick noBuild (moveRequest
    (processTick noBuild (processTick noBuild (processTick noBuild
      (moveRequest initState 0 7)))) 7 14))

set_option maxRecDepth 10000 in
/-- C10: issuing a move order (human `moveSelectedArmy` or an AI movement
decision) changes only the moving flag, destination and movement progress
of armies — id, owner, size, morale and conquest progress are untouched —
and arrival (`processMovement`) also keeps conquest progress; hence the
reachable state `runStale` holds an army that accrued conquest progress 1
at province 7, is arriving at the foreign province 14, and completes the
conquest of province 14 after a single qualifying tick instead of two. -/
theorem move_orders_keep_conquest_progress :
    (∀ (st : GameState) (sel : Option Nat) (t : Nat),
      (moveSelectedArmy st sel t).armies.map armyCore =
        st.armies.map armyCore) ∧
    (∀ (n : Nat) (st : GameState) (i : Nat),
      (aiMoveStep n st i).armies.map armyCore = st.armies.map armyCore) ∧
    (∀ st : GameState,
      (processMovement st).armies.map armyCore = st.armies.map armyCore) ∧
    Reachable runStale ∧
    runStale.armies.head?.map (fun a =>
      (a.owner, a.conquestProgress, a.location, a.destination)) =
      some (0, 1, 7, some 14) ∧
    ownerAt runStale 14 = some 1 ∧
    ownerAt (processTick noBuild runStale) 14 = some 0 := by
  refine ⟨?_, ?_, ?_, ?_, ?_, ?_, ?_⟩
  · intro st sel t
    cases sel with
    | none => rfl
    | some src =>
      show (st.armies.map _).map armyCore = _
      rw [List.map_map]
      refine List.map_congr_left (fun a ha => ?_)
      simp only [Function.comp_apply]
      split <;> rfl
  · intro n st i
    unfold aiMoveStep
    split
    · next a hget =>
      split
      · next t htgt =>
        exact map_core_set st.armies i a _ hget rfl
      · rfl
    · rfl
  · intro st
    show (st.armies.map stepArmy).map armyCore = _
    rw [List.map_map]
    refine List.map_congr_left (fun a _ => ?_)
    simp only [Function.comp_apply]
    exact armyCore_stepArmy a
  · exact Reachable.tick noBuild (Reachable.tick noBuild
      (Reachable.move 7 14 (Reachable.tick noBuild (Reachable.tick noBuild
        (Reachable.tick noBuild (Reachable.move 0 7 Reachable.init))))))
  · decide
  · decide
  · decide
